import Mathlib

/-!
Verification of the `ordinal-comparator` differential-testing tool.

The development shallowly embeds the comparison core of the repository:

* `src/ordinal_comparator/protocols/brc20.py` / `ordinal.py` — the per-protocol
  `compare_block_receipts` pipeline (normalize → emptiness check → deep diff);
* `src/ordinal_comparator/core/comparator.py` — block-range resolution,
  network validation, the retry executor, and the run/exit-code control flow;
* `src/ordinal_comparator/core/blockchain.py` — activation-height tables;
* `src/ordinal_comparator/api/client.py` — the network-name normalization
  performed by `get_node_info`.

Python payloads (parsed JSON trees of dicts / lists / scalars) are modelled by
the inductive type `JSON` below; Python `dict`s become association lists whose
keys are unique in every payload produced by JSON parsing, so helper functions
treat all bindings of a key uniformly.  Numbers are modelled as integers (the
block-receipt payloads carry integral and string scalars).  Fallible Python
code (code that can raise) is modelled with `Except String`.
-/

/-- A JSON-like Python value: the payload trees handled by
`compare_block_receipts` (dicts, lists, strings, ints, bools, None). -/
inductive JSON where
  | null
  | bool (b : Bool)
  | num (n : Int)
  | str (s : String)
  | arr (elems : List JSON)
  | obj (fields : List (String × JSON))

/-- Python truthiness (`bool(x)`) for a `JSON` value: `None`, `False`, `0`,
`""`, `[]` and `{}` are falsy, everything else truthy.  This is the test
performed by `if not primary_data:` in `compare_block_receipts`. -/
def JSON.isTruthy : JSON → Bool
  | .null => false
  | .bool b => b
  | .num n => n != 0
  | .str s => s != ""
  | .arr elems => !elems.isEmpty
  | .obj fields => !fields.isEmpty

/-- Dictionary lookup: the value bound to `key` (Python `d[key]` /
`key in d`), `none` when the key is absent. -/
def jsonGet (fields : List (String × JSON)) (key : String) : Option JSON :=
  (fields.find? (fun p => p.1 == key)).map (fun p => p.2)

example : (JSON.obj []).isTruthy = false := rfl
example : (JSON.obj [("block", JSON.arr [])]).isTruthy = true := rfl
example : jsonGet [("valid", JSON.bool false)] "valid" = some (JSON.bool false) := rfl

/-!
## BRC20 normalization (`BRC20Comparator._normalize_data`)

The Python method runs two `jsonpath_ng` queries over the payload:

1. `$.block[*].events[*]` — every event whose `valid` flag is falsy is removed
   from its containing list (`match.context.value.remove(match.value)`); the
   flag is read with `match.value["valid"]`, which raises `KeyError` when an
   event dict has no `valid` key and `TypeError` when an event is not a dict.
2. `$.block[*].events[*].msg` — the `msg` key is deleted from every remaining
   event dict that has one.

`jsonpath_ng` gives `[*]` these semantics, mirrored below: on a falsy value it
yields no matches; on a list it yields the elements (whose match context is
the real list, so `remove` is effective); on any other truthy value (dict,
int, str, bool) it wraps the value in a fresh single-element list and yields
the value itself — the validity flag of such a wrapped match is still read
(and can still raise), but `remove` mutates only the fresh wrapper list, so
the value always survives.  Field steps (`.events`, `.msg`) match only on
dicts that carry the key.
-/

/-- Model of `match.value["valid"]` for one matched event: the truthiness of the
`valid` flag, or the exception Python raises (`KeyError` when a dict has no
`valid` key, `TypeError` when the event is not a dict). -/
def eventValid : JSON → Except String Bool
  | .obj fields =>
    match jsonGet fields "valid" with
    | some v => .ok v.isTruthy
    | none => .error "KeyError: valid"
  | _ => .error "TypeError: event is not subscriptable"

/-- Validity pass over the elements of a real `events` list: events whose
`valid` flag is falsy are removed; reading the flag can raise. -/
def filterEvents : List JSON → Except String (List JSON)
  | [] => .ok []
  | ev :: rest =>
    match eventValid ev with
    | .error msg => .error msg
    | .ok keep =>
      match filterEvents rest with
      | .error msg => .error msg
      | .ok rest => .ok (if keep then ev :: rest else rest)

/-- Validity pass over the value of an `events` field (the `[*]` step of
query 1): no matches on a falsy value; element-wise filtering on a list; on
any other truthy value the wrapped match has its flag checked but survives
(removal only mutates the fresh wrapper list). -/
def passValidEvents (v : JSON) : Except String JSON :=
  if v.isTruthy = false then .ok v
  else
    match v with
    | .arr evs =>
      match filterEvents evs with
      | .ok evs => .ok (.arr evs)
      | .error msg => .error msg
    | other =>
      match eventValid other with
      | .ok _ => .ok other
      | .error msg => .error msg

/-- Rewrite the value of every binding of `key` with the fallible `f`,
leaving other bindings untouched (a field step of a jsonpath query applied to
a dict; keys are unique in parsed payloads). -/
def updateField (key : String) (f : JSON → Except String JSON) :
    List (String × JSON) → Except String (List (String × JSON))
  | [] => .ok []
  | (k, v) :: rest =>
    match (if k == key then f v else .ok v) with
    | .error msg => .error msg
    | .ok v =>
      match updateField key f rest with
      | .error msg => .error msg
      | .ok rest => .ok ((k, v) :: rest)

/-- Validity pass over one entry matched by `$.block[*]`: the `.events` field
step matches only on a dict that has the key. -/
def passValidEntry : JSON → Except String JSON
  | .obj fields =>
    match updateField "events" passValidEvents fields with
    | .ok fields => .ok (.obj fields)
    | .error msg => .error msg
  | other => .ok other

/-- Apply the fallible `f` to every element of a list, in order. -/
def mapEntries (f : JSON → Except String JSON) : List JSON → Except String (List JSON)
  | [] => .ok []
  | x :: rest =>
    match f x with
    | .error msg => .error msg
    | .ok x =>
      match mapEntries f rest with
      | .error msg => .error msg
      | .ok rest => .ok (x :: rest)

/-- Validity pass over the value of the `block` field (the `[*]` step of the
`$.block[*]` prefix): no matches on a falsy value; element-wise on a list; a
truthy dict is wrapped and treated as a single block entry; on a wrapped
scalar the `.events` step matches nothing. -/
def passValidBlock (v : JSON) : Except String JSON :=
  if v.isTruthy = false then .ok v
  else
    match v with
    | .arr entries =>
      match mapEntries passValidEntry entries with
      | .ok entries => .ok (.arr entries)
      | .error msg => .error msg
    | .obj fields =>
      match updateField "events" passValidEvents fields with
      | .ok fields => .ok (.obj fields)
      | .error msg => .error msg
    | other => .ok other

/-- Query 1 of `_normalize_data` at the top level: the `.block` field step
matches only on a dict with a `block` key. -/
def passValid : JSON → Except String JSON
  | .obj fields =>
    match updateField "block" passValidBlock fields with
    | .ok fields => .ok (.obj fields)
    | .error msg => .error msg
  | other => .ok other

/-- Rewrite the value of every binding of `key` with the total `g`. -/
def updateFieldP (key : String) (g : JSON → JSON) :
    List (String × JSON) → List (String × JSON)
  | [] => []
  | (k, v) :: rest => (k, if k == key then g v else v) :: updateFieldP key g rest

/-- Model of `del event["msg"]` on one matched event: a dict loses its `msg` bindings
(the `.msg` field step matches nothing on other values). -/
def stripMsgEvent : JSON → JSON
  | .obj fields => .obj (fields.filter (fun p => p.1 != "msg"))
  | other => other

/-- Query 2 over the value of an `events` field. -/
def stripMsgEvents (v : JSON) : JSON :=
  if v.isTruthy = false then v
  else
    match v with
    | .arr evs => .arr (evs.map stripMsgEvent)
    | other => stripMsgEvent other

/-- Query 2 over one block entry. -/
def stripMsgEntry : JSON → JSON
  | .obj fields => .obj (updateFieldP "events" stripMsgEvents fields)
  | other => other

/-- Query 2 over the value of the `block` field. -/
def stripMsgBlock (v : JSON) : JSON :=
  if v.isTruthy = false then v
  else
    match v with
    | .arr entries => .arr (entries.map stripMsgEntry)
    | .obj fields => .obj (updateFieldP "events" stripMsgEvents fields)
    | _ => v

/-- Query 2 (`$.block[*].events[*].msg` deletion) at the top level. -/
def stripMsg : JSON → JSON
  | .obj fields => .obj (updateFieldP "block" stripMsgBlock fields)
  | other => other

/-- Model of `BRC20Comparator._normalize_data`: the validity pass followed by the
msg-strip pass; an exception in the validity pass propagates. -/
def brc20_normalize_data (data : JSON) : Except String JSON :=
  match passValid data with
  | .ok v => .ok (stripMsg v)
  | .error msg => .error msg

example :
    brc20_normalize_data (JSON.obj [("block", JSON.arr [JSON.obj [("events",
      JSON.arr [JSON.obj [("valid", JSON.bool true), ("msg", JSON.str "m"), ("amt", JSON.num 3)],
                JSON.obj [("valid", JSON.bool false), ("amt", JSON.num 4)]])]])]) =
    .ok (JSON.obj [("block", JSON.arr [JSON.obj [("events",
      JSON.arr [JSON.obj [("valid", JSON.bool true), ("amt", JSON.num 3)]])]])]) := rfl

example :
    brc20_normalize_data (JSON.obj [("block", JSON.arr [JSON.obj [("events",
      JSON.arr [JSON.obj [("amt", JSON.num 3)]])]])]) = .error "KeyError: valid" := rfl

/-!
## Structural diff (`DeepDiff(primary_data, secondary_data)`)

`compare_block_receipts` hands the two normalized payloads to the `deepdiff`
library and only consumes the result as a dictionary of change groups, each a
collection of changed paths.  The model below is a structural deep diff
producing a flat list of `(change group, path)` records: dict comparison is
key-driven (order-insensitive) with `dictionary_item_added` /
`dictionary_item_removed` for one-sided keys; list comparison is positional
with `iterable_item_added` / `iterable_item_removed` for length mismatches;
scalars yield `values_changed` (same kind) or `type_changes` (different
kind).  The formatting step of the tool tags every record, so only the verdict
`diff = []` and per-record formatting matter to the theorems below.
-/

mutual

/-- Structural diff of two payload trees at `path`, as a flat list of
`(change group, path)` records; empty exactly on deep (dict-order
insensitive) equality. -/
def deepDiff (path : String) : JSON → JSON → List (String × String)
  | .obj fa, .obj fb =>
    ((fa.filter (fun p => (jsonGet fb p.1).isNone)).map
      (fun p => ("dictionary_item_removed", path ++ "[" ++ p.1 ++ "]")))
    ++ ((fb.filter (fun p => (jsonGet fa p.1).isNone)).map
      (fun p => ("dictionary_item_added", path ++ "[" ++ p.1 ++ "]")))
    ++ deepDiffFields path fb fa
  | .arr xs, .arr ys => deepDiffItems path 0 xs ys
  | .null, .null => []
  | .bool x, .bool y => if x = y then [] else [("values_changed", path)]
  | .num x, .num y => if x = y then [] else [("values_changed", path)]
  | .str x, .str y => if x = y then [] else [("values_changed", path)]
  | _, _ => [("type_changes", path)]
termination_by a _ => sizeOf a
decreasing_by
  all_goals simp_wf

/-- Diff the common keys: for each binding of `fa` whose key also occurs in
`fb`, recursively diff the two values. -/
def deepDiffFields (path : String) (fb : List (String × JSON)) :
    List (String × JSON) → List (String × String)
  | [] => []
  | (k, v) :: rest =>
    (match jsonGet fb k with
     | some w => deepDiff (path ++ "[" ++ k ++ "]") v w
     | none => [])
    ++ deepDiffFields path fb rest
termination_by l => sizeOf l
decreasing_by
  all_goals simp_wf
  all_goals omega

/-- Positional diff of two lists, reporting extra trailing items on either
side. -/
def deepDiffItems (path : String) (i : Nat) : List JSON → List JSON → List (String × String)
  | x :: xs, y :: ys =>
    deepDiff (path ++ "[" ++ toString i ++ "]") x y ++ deepDiffItems path (i + 1) xs ys
  | _ :: xs, [] =>
    (List.range (xs.length + 1)).map
      (fun j => ("iterable_item_removed", path ++ "[" ++ toString (i + j) ++ "]"))
  | [], ys =>
    (List.range ys.length).map
      (fun j => ("iterable_item_added", path ++ "[" ++ toString (i + j) ++ "]"))
termination_by xs _ => sizeOf xs
decreasing_by
  all_goals simp_wf
  all_goals omega

end

/-!
## `compare_block_receipts` (`BRC20Comparator` and `OrdinalComparator`)

After normalization both comparator classes run the same pipeline: both
payloads falsy ⇒ matched with no messages; exactly one falsy ⇒ unmatched with
a single message naming the side missing data; otherwise the deep diff, whose
records are formatted as `"<Protocol> discrepancy: <group> - <change>"`.
`OrdinalComparator` inherits the identity `_normalize_data` from
`BaseComparator`; `BRC20Comparator` overrides it with the fallible
normalization above, so its comparison can propagate an exception.
-/

/-- The shared emptiness-check-then-diff pipeline of `compare_block_receipts`
over two already-normalized payloads, with the protocol name used in the
message templates. -/
def compareReceipts (protoName : String) (primary secondary : JSON) :
    Bool × List String :=
  if primary.isTruthy = false ∧ secondary.isTruthy = false then (true, [])
  else if primary.isTruthy = false then
    (false, ["Primary indexer is missing " ++ protoName ++ " data for this block"])
  else if secondary.isTruthy = false then
    (false, ["Secondary indexer is missing " ++ protoName ++ " data for this block"])
  else
    let diff := deepDiff "root" primary secondary
    if diff.isEmpty then (true, [])
    else
      (false, diff.map (fun d =>
        protoName ++ " discrepancy: " ++ d.1 ++ " - " ++ d.2))

/-- Model of `OrdinalComparator.compare_block_receipts`: normalization is the inherited
identity, so the pipeline runs on the raw payloads. -/
def ordinal_compare_block_receipts (primary secondary : JSON) : Bool × List String :=
  compareReceipts "Ordinal" primary secondary

/-- Model of `BRC20Comparator.compare_block_receipts`: both payloads are normalized
first (either normalization can raise), then the shared pipeline runs. -/
def brc20_compare_block_receipts (primary secondary : JSON) :
    Except String (Bool × List String) :=
  match brc20_normalize_data primary with
  | .error msg => .error msg
  | .ok p =>
    match brc20_normalize_data secondary with
    | .error msg => .error msg
    | .ok s => .ok (compareReceipts "BRC20" p s)

example : ordinal_compare_block_receipts (JSON.obj []) (JSON.obj []) = (true, []) := rfl
example :
    ordinal_compare_block_receipts (JSON.obj []) (JSON.obj [("block", JSON.arr [])]) =
      (false, ["Primary indexer is missing Ordinal data for this block"]) := rfl
example :
    brc20_compare_block_receipts (JSON.obj [("block", JSON.arr [])]) (JSON.obj []) =
      .ok (false, ["Secondary indexer is missing BRC20 data for this block"]) := rfl

/-!
## Retry executor (`IndexerComparator._fetch_with_retry`)

The Python loop keeps a `retry_count` starting at 0 and a `last_error`; while
`retry_count < max_retries` it invokes the operation; on failure it
increments `retry_count`, records the error, and — only when `retry_count` is
still below `max_retries` — sleeps `2 ** (retry_count - 1)` seconds before the
next attempt.  After the loop it raises `last_error` (or a generic exception
when the loop never ran, i.e. `max_retries = 0`).

The operation is modelled as a function from the 1-based attempt number to
the outcome of that attempt; the model returns the surfaced result together with
the number of invocations made and the list of backoff sleep durations, in
order.
-/

/-- One execution of the retry loop body starting from a given `retry_count`
and `last_error`.  Returns `(result, invocations, sleeps)`. -/
def fetch_with_retry_aux (op : Nat → Except ε α) (max_retries retry_count : Nat)
    (last_error : Option ε) : Except (Option ε) α × Nat × List Nat :=
  if _h : retry_count < max_retries then
    match op (retry_count + 1) with
    | .ok a => (.ok a, 1, [])
    | .error e =>
      let rest := fetch_with_retry_aux op max_retries (retry_count + 1) (some e)
      (rest.1, rest.2.1 + 1,
        (if retry_count + 1 < max_retries then [2 ^ retry_count] else []) ++ rest.2.2)
  else
    (.error last_error, 0, [])
termination_by max_retries - retry_count

/-- Model of `IndexerComparator._fetch_with_retry` (call sites use the default
`max_retries = 5`): result, total invocations, and backoff sleeps. -/
def fetch_with_retry (op : Nat → Except ε α) (max_retries : Nat) :
    Except (Option ε) α × Nat × List Nat :=
  fetch_with_retry_aux op max_retries 0 none

/-!
## Block-range resolution and startup validation (`IndexerComparator.__init__`)
-/

/-- The `Blockchain` enum (`core/blockchain.py`). -/
inductive Blockchain where
  | BITCOIN
  | FRACTAL
deriving DecidableEq

/-- The `Protocol` enum (`core/protocol.py`). -/
inductive Protocol where
  | ORDINAL
  | BRC20
deriving DecidableEq

/-- Model of `Blockchain.get_first_brc20_height`. -/
def Blockchain.get_first_brc20_height : Blockchain → Int
  | .BITCOIN => 779832
  | .FRACTAL => 21000

/-- Model of `Blockchain.get_first_inscription_height`. -/
def Blockchain.get_first_inscription_height : Blockchain → Int
  | .BITCOIN => 767430
  | .FRACTAL => 21000

/-- Model of `self.blockchain.name.lower()`: the canonical lowercase network name the
validation compares against. -/
def Blockchain.lowerName : Blockchain → String
  | .BITCOIN => "bitcoin"
  | .FRACTAL => "fractal"

/-- The rewrite `APIClient.get_node_info` applies to the network name the
endpoint reports: a raw `"mainnet"` becomes `"bitcoin"` before the comparator
ever sees it. -/
def get_node_info_network (raw : String) : String :=
  if raw == "mainnet" then "bitcoin" else raw

/-- Model of `IndexerComparator._validate_network_compatibility` on the two network
names returned by `get_node_info`. -/
def validate_network_compatibility (blockchain : Blockchain)
    (primary_network secondary_network : String) : Except String Unit :=
  if primary_network ≠ blockchain.lowerName ∨ secondary_network ≠ blockchain.lowerName then
    .error "Endpoints are not on the same network"
  else
    .ok ()

/-- The startup network check as the endpoints experience it: raw reported
names pass through `get_node_info` before `_validate_network_compatibility`
sees them. -/
def startup_network_check (blockchain : Blockchain)
    (primary_raw secondary_raw : String) : Except String Unit :=
  validate_network_compatibility blockchain
    (get_node_info_network primary_raw) (get_node_info_network secondary_raw)

/-- Model of `IndexerComparator._determine_start_block`: the user value when given,
else the chain-specific activation height of the protocol. -/
def determine_start_block (blockchain : Blockchain) (protocol : Protocol)
    (start_block : Option Int) : Int :=
  match start_block with
  | some s => s
  | none =>
    match protocol with
    | .ORDINAL => blockchain.get_first_inscription_height
    | .BRC20 => blockchain.get_first_brc20_height

/-- Model of `IndexerComparator._determine_end_block`: the user value when given and
strictly below the lowest common latest height, else that minimum. -/
def determine_end_block (end_block : Option Int) (min_latest_block : Int) : Int :=
  match end_block with
  | some e => if e < min_latest_block then e else min_latest_block
  | none => min_latest_block

/-- The block-range resolution and validation of `IndexerComparator.__init__`
(lines 70-82): resolve start and end, then fail when `end < start`. -/
def resolve_block_range (blockchain : Blockchain) (protocol : Protocol)
    (start_block end_block : Option Int) (primary_latest secondary_latest : Int) :
    Except String (Int × Int) :=
  let s := determine_start_block blockchain protocol start_block
  let e := determine_end_block end_block (min primary_latest secondary_latest)
  if e < s then
    .error "End block is less than start block"
  else
    .ok (s, e)

/-- Model of `IndexerComparator.__init__` after the node-info fetches: network
validation runs first and aborts initialization on mismatch; only then is the
block range resolved and validated.  The result is the `(start, end)` range a
successfully constructed comparator would run over. -/
def init_comparator (blockchain : Blockchain) (protocol : Protocol)
    (primary_raw secondary_raw : String)
    (start_block end_block : Option Int) (primary_latest secondary_latest : Int) :
    Except String (Int × Int) :=
  match startup_network_check blockchain primary_raw secondary_raw with
  | .error msg => .error msg
  | .ok _ => resolve_block_range blockchain protocol start_block end_block
      primary_latest secondary_latest

/-!
## Run loop, interrupts and exit codes (`IndexerComparator.run`, `cli.main`)

`run` registers a SIGINT handler whose only effect is to set the shutdown
event (once); the submission loop checks the event before each height and
breaks when it is set, after which `run` joins the spawned tasks, logs the
completion metrics and returns normally.  A `KeyboardInterrupt` raised inside
the try-block of `run` is caught, converted into a graceful shutdown and **not**
re-raised.  `cli.main` wraps construction and `run` in
`try/except KeyboardInterrupt/except Exception` returning 0, 130 and 1
respectively, so 130 requires a `KeyboardInterrupt` to propagate out of the
guarded block — which the handler installed by `run` prevents during the run.
-/

/-- Outcome of a guarded Python call: normal return, a propagating
`KeyboardInterrupt`, or any other exception. -/
inductive PyOutcome (α : Type) where
  | ok (a : α)
  | keyboardInterrupt
  | exn (msg : String)

/-- How an external interrupt reaches a run of the tool. -/
inductive InterruptEvent where
  /-- No interrupt arrives. -/
  | none
  /-- SIGINT arrives while the submission loop is running, before iteration
  `i`: the registered handler sets the shutdown event. -/
  | sigintDuringLoop (i : Nat)
  /-- A `KeyboardInterrupt` is raised inside the try-block of `run` after `i`
  submissions (e.g. in the window before the handler is registered). -/
  | kbInterruptInRun (i : Nat)

/-- The heights the submission loop spawns tasks for: ascending from
`start`, stopping early when the shutdown event is observed. -/
def submitted_heights (start_block end_block : Int) (interrupt : InterruptEvent) :
    List Int :=
  let all := (List.range (end_block + 1 - start_block).toNat).map
    (fun i => start_block + i)
  match interrupt with
  | .none => all
  | .sigintDuringLoop i => all.take i
  | .kbInterruptInRun i => all.take i

/-- Model of `IndexerComparator.run`: the SIGINT handler only sets the shutdown event,
the loop breaks at its next check, and the `except KeyboardInterrupt` branch
performs a graceful shutdown without re-raising — so `run` returns normally
whether or not an interrupt occurred, with the submitted heights as above. -/
def run_model (start_block end_block : Int) (interrupt : InterruptEvent) :
    PyOutcome (List Int) :=
  .ok (submitted_heights start_block end_block interrupt)

/-- Model of `cli.main`: exit code 0 when the guarded block returns, 130 when a
`KeyboardInterrupt` propagates out of it, 1 on any other exception.
Initialization runs before `run`, so an initialization outcome other than
`ok` decides the exit code alone. -/
def main_exit_code (init_outcome : PyOutcome (Int × Int))
    (interrupt : InterruptEvent) : Int :=
  match init_outcome with
  | .ok r =>
    match run_model r.1 r.2 interrupt with
    | .ok _ => 0
    | .keyboardInterrupt => 130
    | .exn _ => 1
  | .keyboardInterrupt => 130
  | .exn _ => 1

/-!
## Payloads on which the BRC20 normalization cannot raise

`_normalize_data` raises exactly when some event matched by
`$.block[*].events[*]` is not a dict carrying a `valid` key.  The predicate
below says every such event is; it is the domain on which the BRC20
comparison is total.
-/

/-- Is a matched event a dict with a `valid` key (so `event["valid"]` cannot
raise)? -/
def eventHasValid : JSON → Bool
  | .obj fields => (jsonGet fields "valid").isSome
  | _ => false

/-- Every event matched inside the value of an `events` field is a dict with
a `valid` key. -/
def eventsWF (v : JSON) : Bool :=
  if v.isTruthy = false then true
  else
    match v with
    | .arr evs => evs.all eventHasValid
    | other => eventHasValid other

/-- Every event below one matched block entry is well-formed. -/
def entryWF : JSON → Bool
  | .obj fields => fields.all (fun p => p.1 != "events" || eventsWF p.2)
  | _ => true

/-- Every event below the value of the `block` field is well-formed. -/
def blockWF (v : JSON) : Bool :=
  if v.isTruthy = false then true
  else
    match v with
    | .arr entries => entries.all entryWF
    | .obj fields => fields.all (fun p => p.1 != "events" || eventsWF p.2)
    | _ => true

/-- Every event matched by `$.block[*].events[*]` in the payload is a dict
with a `valid` key. -/
def brc20WF : JSON → Bool
  | .obj fields => fields.all (fun p => p.1 != "block" || blockWF p.2)
  | _ => true

/-!
# Claim theorems
-/

/-- C2: with neither height supplied, the resolved start is the chain-specific
activation height of the protocol (BITCOIN/BRC20 779832, BITCOIN/ORDINAL
767430, FRACTAL 21000) and the resolved end is the minimum of the two
latest heights of the two endpoints; a supplied end height is used exactly when it is
strictly below that minimum. -/
theorem C2_default_block_range (blockchain : Blockchain) (protocol : Protocol)
    (primary_latest secondary_latest user_end : Int) :
    (determine_start_block blockchain protocol none =
      match blockchain, protocol with
      | .BITCOIN, .BRC20 => 779832
      | .BITCOIN, .ORDINAL => 767430
      | .FRACTAL, .BRC20 => 21000
      | .FRACTAL, .ORDINAL => 21000) ∧
    determine_end_block none (min primary_latest secondary_latest) =
      min primary_latest secondary_latest ∧
    determine_end_block (some user_end) (min primary_latest secondary_latest) =
      (if user_end < min primary_latest secondary_latest then user_end
       else min primary_latest secondary_latest) := by
  refine ⟨?_, rfl, rfl⟩
  cases blockchain <;> cases protocol <;> rfl

/-- C7: whenever the resolved end height is below the resolved start height,
initialization fails with a configuration error, and a successfully
constructed comparator always has `start ≤ end`. -/
theorem C7_invalid_range_rejected (blockchain : Blockchain) (protocol : Protocol)
    (primary_raw secondary_raw : String) (sb eb : Option Int)
    (primary_latest secondary_latest : Int) :
    (determine_end_block eb (min primary_latest secondary_latest) <
        determine_start_block blockchain protocol sb →
      ∃ msg, init_comparator blockchain protocol primary_raw secondary_raw
        sb eb primary_latest secondary_latest = .error msg) ∧
    (∀ r, init_comparator blockchain protocol primary_raw secondary_raw
        sb eb primary_latest secondary_latest = .ok r → r.1 ≤ r.2) := by
  constructor
  · intro hlt
    unfold init_comparator
    cases hnet : startup_network_check blockchain primary_raw secondary_raw with
    | error msg => exact ⟨msg, rfl⟩
    | ok _ =>
      refine ⟨"End block is less than start block", ?_⟩
      simp only [resolve_block_range]
      rw [if_pos hlt]
  · intro r hr
    unfold init_comparator at hr
    cases hnet : startup_network_check blockchain primary_raw secondary_raw with
    | error msg => rw [hnet] at hr; exact absurd hr (by simp)
    | ok _ =>
      rw [hnet] at hr
      simp only [resolve_block_range] at hr
      split at hr
      · exact absurd hr (by simp)
      · rename_i hge
        have : r = (determine_start_block blockchain protocol sb,
            determine_end_block eb (min primary_latest secondary_latest)) := by
          exact (Except.ok.injEq _ _).mp hr.symm |>.symm ▸ rfl
        subst this
        omega

/-- Witness for C7 at a concrete configuration: user start 100, user end 50. -/
theorem C7_witness :
    ∃ msg, init_comparator .BITCOIN .BRC20 "bitcoin" "bitcoin"
      (some 100) (some 50) 1000 2000 = .error msg :=
  (C7_invalid_range_rejected .BITCOIN .BRC20 "bitcoin" "bitcoin"
    (some 100) (some 50) 1000 2000).1 (by decide)

/-- C8 counterexample: an endpoint reporting network `"mainnet"` differs from
the canonical lowercase name `"bitcoin"`, yet startup validation passes,
because `get_node_info` rewrites `"mainnet"` to `"bitcoin"` before the check
— so a mismatch of the *reported* name does not imply a fatal error. -/
theorem C8_counterexample :
    startup_network_check .BITCOIN "mainnet" "bitcoin" = .ok () ∧
    "mainnet" ≠ Blockchain.lowerName .BITCOIN := by
  exact ⟨rfl, by decide⟩

/-- C8 (amended): initialization raises a configuration error if and only if
the reported network name of at least one endpoint, after the rewrite of
`"mainnet"` to `"bitcoin"` in `get_node_info`, differs from the canonical
lowercase name of the blockchain; on such a mismatch initialization aborts with that
error before any range is resolved. -/
theorem C8_network_validation (blockchain : Blockchain)
    (primary_raw secondary_raw : String) (protocol : Protocol)
    (sb eb : Option Int) (primary_latest secondary_latest : Int) :
    ((∃ msg, startup_network_check blockchain primary_raw secondary_raw = .error msg) ↔
      (get_node_info_network primary_raw ≠ blockchain.lowerName ∨
       get_node_info_network secondary_raw ≠ blockchain.lowerName)) ∧
    (∀ msg, startup_network_check blockchain primary_raw secondary_raw = .error msg →
      init_comparator blockchain protocol primary_raw secondary_raw
        sb eb primary_latest secondary_latest = .error msg) := by
  constructor
  · constructor
    · rintro ⟨msg, hmsg⟩
      by_contra hcon
      push_neg at hcon
      unfold startup_network_check validate_network_compatibility at hmsg
      rw [if_neg (by push_neg; exact hcon)] at hmsg
      exact absurd hmsg (by simp)
    · intro hor
      refine ⟨"Endpoints are not on the same network", ?_⟩
      unfold startup_network_check validate_network_compatibility
      rw [if_pos hor]
  · intro msg h
    unfold init_comparator
    rw [h]

/-- Witness for C8 at a concrete mismatching configuration. -/
theorem C8_witness :
    init_comparator .BITCOIN .BRC20 "testnet" "bitcoin" none none 800000 800000 =
      .error "Endpoints are not on the same network" :=
  (C8_network_validation .BITCOIN "testnet" "bitcoin" .BRC20 none none
    800000 800000).2 "Endpoints are not on the same network" rfl

/-- C9 counterexample: a SIGINT arriving while the run loop is active is
converted by the registered handler into a shutdown-event set; `run` returns
normally and the process exits with code 0, not 130 — and that interrupted
completion is not a normal one. -/
theorem C9_counterexample :
    main_exit_code (.ok (1, 10)) (.sigintDuringLoop 3) = 0 ∧ (0 : Int) ≠ 130 :=
  ⟨rfl, by decide⟩

/-- C9 (amended): exit code 130 is produced exactly when a KeyboardInterrupt
propagates out of initialization (before `run` installs its SIGINT handler);
an interrupt observed during the run halts submission at the next loop check
and the process exits with code 0. -/
theorem C9_exit_codes (init_outcome : PyOutcome (Int × Int))
    (interrupt : InterruptEvent) :
    (main_exit_code init_outcome interrupt = 130 ↔
      init_outcome = PyOutcome.keyboardInterrupt) ∧
    (∀ s e i, main_exit_code (.ok (s, e)) (.sigintDuringLoop i) = 0 ∧
      submitted_heights s e (.sigintDuringLoop i) =
        (submitted_heights s e .none).take i) := by
  refine ⟨?_, fun s e i => ⟨rfl, rfl⟩⟩
  cases init_outcome with
  | ok r => simp [main_exit_code, run_model]
  | keyboardInterrupt => simp [main_exit_code]
  | exn m => simp [main_exit_code]

/-- C10: emptiness is tested on the top-level container of the normalized
payload only.  A payload whose single block entry loses its only (invalid)
event to normalization is still a non-empty dict, so against a truly empty
payload the comparison reports a single missing-data discrepancy for the
empty side, although neither side carries any event; likewise for the Ordinal
comparator with a `{"block": []}` payload. -/
theorem C10_top_level_emptiness_only :
    brc20_normalize_data
        (JSON.obj [("block", JSON.arr [JSON.obj [("events",
          JSON.arr [JSON.obj [("valid", JSON.bool false), ("msg", JSON.str "m")]])]])]) =
      .ok (JSON.obj [("block", JSON.arr [JSON.obj [("events", JSON.arr [])]])]) ∧
    brc20_compare_block_receipts
        (JSON.obj [("block", JSON.arr [JSON.obj [("events",
          JSON.arr [JSON.obj [("valid", JSON.bool false), ("msg", JSON.str "m")]])]])])
        (JSON.obj []) =
      .ok (false, ["Secondary indexer is missing BRC20 data for this block"]) ∧
    brc20_compare_block_receipts (JSON.obj [])
        (JSON.obj [("block", JSON.arr [JSON.obj [("events",
          JSON.arr [JSON.obj [("valid", JSON.bool false), ("msg", JSON.str "m")]])]])]) =
      .ok (false, ["Primary indexer is missing BRC20 data for this block"]) ∧
    ordinal_compare_block_receipts (JSON.obj [("block", JSON.arr [])]) (JSON.obj []) =
      (false, ["Secondary indexer is missing Ordinal data for this block"]) :=
  ⟨rfl, rfl, rfl, rfl⟩

/-- Shared emptiness-branch behavior of the `compare_block_receipts`
pipeline over two already-normalized payloads. -/
theorem compareReceipts_empty_cases (nm : String) (x y : JSON) :
    (x.isTruthy = false → y.isTruthy = false → compareReceipts nm x y = (true, [])) ∧
    (x.isTruthy = false → y.isTruthy = true → compareReceipts nm x y =
      (false, ["Primary indexer is missing " ++ nm ++ " data for this block"])) ∧
    (x.isTruthy = true → y.isTruthy = false → compareReceipts nm x y =
      (false, ["Secondary indexer is missing " ++ nm ++ " data for this block"])) := by
  refine ⟨?_, ?_, ?_⟩ <;> intro hx hy <;> simp [compareReceipts, hx, hy]

/-- C1: on a pair of normalized payloads, both empty ⇒ matched with no
discrepancies; exactly one empty ⇒ unmatched with exactly one discrepancy
naming the side (primary or secondary) missing data — for the BRC20
comparator (whose pipeline normalizes its inputs to `na`, `nb`) and the
Ordinal comparator (whose inherited normalization is the identity). -/
theorem C1_empty_absent_sides (a b na nb p q : JSON)
    (ha : brc20_normalize_data a = .ok na) (hb : brc20_normalize_data b = .ok nb) :
    (na.isTruthy = false → nb.isTruthy = false →
      brc20_compare_block_receipts a b = .ok (true, [])) ∧
    (na.isTruthy = false → nb.isTruthy = true →
      brc20_compare_block_receipts a b =
        .ok (false, ["Primary indexer is missing BRC20 data for this block"])) ∧
    (na.isTruthy = true → nb.isTruthy = false →
      brc20_compare_block_receipts a b =
        .ok (false, ["Secondary indexer is missing BRC20 data for this block"])) ∧
    (p.isTruthy = false → q.isTruthy = false →
      ordinal_compare_block_receipts p q = (true, [])) ∧
    (p.isTruthy = false → q.isTruthy = true →
      ordinal_compare_block_receipts p q =
        (false, ["Primary indexer is missing Ordinal data for this block"])) ∧
    (p.isTruthy = true → q.isTruthy = false →
      ordinal_compare_block_receipts p q =
        (false, ["Secondary indexer is missing Ordinal data for this block"])) := by
  have hbr : ∀ r, compareReceipts "BRC20" na nb = r →
      brc20_compare_block_receipts a b = .ok r := by
    intro r hr
    simp only [brc20_compare_block_receipts, ha, hb]
    rw [hr]
  refine ⟨fun hx hy => ?_, fun hx hy => ?_, fun hx hy => ?_,
    fun hx hy => ?_, fun hx hy => ?_, fun hx hy => ?_⟩
  · exact hbr _ ((compareReceipts_empty_cases "BRC20" na nb).1 hx hy)
  · exact hbr _ ((compareReceipts_empty_cases "BRC20" na nb).2.1 hx hy)
  · exact hbr _ ((compareReceipts_empty_cases "BRC20" na nb).2.2 hx hy)
  · exact (compareReceipts_empty_cases "Ordinal" p q).1 hx hy
  · exact (compareReceipts_empty_cases "Ordinal" p q).2.1 hx hy
  · exact (compareReceipts_empty_cases "Ordinal" p q).2.2 hx hy

/-- Witness for C1 at concrete payloads: an empty primary against a
non-empty secondary yields the single primary-missing discrepancy. -/
theorem C1_witness :
    brc20_compare_block_receipts (JSON.obj []) (JSON.obj [("x", JSON.num 1)]) =
      .ok (false, ["Primary indexer is missing BRC20 data for this block"]) :=
  (C1_empty_absent_sides (JSON.obj []) (JSON.obj [("x", JSON.num 1)])
    (JSON.obj []) (JSON.obj [("x", JSON.num 1)]) JSON.null JSON.null
    rfl rfl).2.1 rfl rfl

/-- The `matched` flag of the shared pipeline is true exactly when the
discrepancy list is empty. -/
theorem compareReceipts_matched_iff (nm : String) (x y : JSON) (m : Bool)
    (d : List String) (h : compareReceipts nm x y = (m, d)) : m = true ↔ d = [] := by
  simp only [compareReceipts] at h
  split at h
  · cases h; simp
  · split at h
    · cases h; simp
    · split at h
      · cases h; simp
      · split at h
        · cases h; simp
        · rename_i hne
          cases h
          simp only [List.isEmpty_iff] at hne
          simp [List.map_eq_nil_iff, hne]

/-- C4: every `ComparisonResult` returned by `compare_block_receipts` — for
the Ordinal comparator on any payload pair, and for the BRC20 comparator on
any pair on which it returns — satisfies `matched ↔ discrepancies = []`. -/
theorem C4_matched_iff_empty (a b p q : JSON) (m : Bool) (d : List String) :
    (ordinal_compare_block_receipts p q = (m, d) → (m = true ↔ d = [])) ∧
    (brc20_compare_block_receipts a b = .ok (m, d) → (m = true ↔ d = [])) := by
  constructor
  · exact compareReceipts_matched_iff "Ordinal" p q m d
  · intro h
    unfold brc20_compare_block_receipts at h
    cases hna : brc20_normalize_data a with
    | error msg => rw [hna] at h; exact absurd h (by simp)
    | ok na =>
      rw [hna] at h
      cases hnb : brc20_normalize_data b with
      | error msg => rw [hnb] at h; exact absurd h (by simp)
      | ok nb =>
        rw [hnb] at h
        exact compareReceipts_matched_iff "BRC20" na nb m d
          ((Except.ok.injEq _ _).mp h)

/-- Witness for C4: the matched verdict on two equal (empty) payloads has an
empty discrepancy list. -/
theorem C4_witness : (true = true ↔ ([] : List String) = []) :=
  (C4_matched_iff_empty JSON.null JSON.null (JSON.obj []) (JSON.obj [])
    true []).1 rfl

/-- C3: under the retry executor with its `max_retries = 5` default, an
operation failing on every attempt is invoked exactly 5 times and the error
finally raised is the error of the last attempt (with the four intervening
backoffs 1s, 2s, 4s, 8s); an operation first succeeding on attempt `k ≤ 5`
is invoked exactly `k` times, with `k - 1` backoff sleeps of durations
1, 2, ..., 2^(k-2) seconds, and its result is returned. -/
theorem C3_retry_semantics {ε α : Type} (op : Nat → Except ε α)
    (err : Nat → ε) (a : α) (k : Nat) :
    ((∀ i, 1 ≤ i → i ≤ 5 → op i = .error (err i)) →
      fetch_with_retry op 5 = (.error (some (err 5)), 5, [1, 2, 4, 8])) ∧
    (1 ≤ k → k ≤ 5 → (∀ i, 1 ≤ i → i < k → op i = .error (err i)) →
      op k = .ok a →
      fetch_with_retry op 5 =
        (.ok a, k, (List.range (k - 1)).map (fun t => 2 ^ t))) := by
  constructor
  · intro hf
    have e1 := hf 1 (by omega) (by omega)
    have e2 := hf 2 (by omega) (by omega)
    have e3 := hf 3 (by omega) (by omega)
    have e4 := hf 4 (by omega) (by omega)
    have e5 := hf 5 (by omega) (by omega)
    simp [fetch_with_retry, fetch_with_retry_aux, e1, e2, e3, e4, e5]
  · intro hk1 hk5 hf hok
    interval_cases k
    · simp [fetch_with_retry, fetch_with_retry_aux, hok]
    · have e1 := hf 1 (by omega) (by omega)
      simp [fetch_with_retry, fetch_with_retry_aux, e1, hok, List.range_succ]
    · have e1 := hf 1 (by omega) (by omega)
      have e2 := hf 2 (by omega) (by omega)
      simp [fetch_with_retry, fetch_with_retry_aux, e1, e2, hok, List.range_succ]
    · have e1 := hf 1 (by omega) (by omega)
      have e2 := hf 2 (by omega) (by omega)
      have e3 := hf 3 (by omega) (by omega)
      simp [fetch_with_retry, fetch_with_retry_aux, e1, e2, e3, hok, List.range_succ]
    · have e1 := hf 1 (by omega) (by omega)
      have e2 := hf 2 (by omega) (by omega)
      have e3 := hf 3 (by omega) (by omega)
      have e4 := hf 4 (by omega) (by omega)
      simp [fetch_with_retry, fetch_with_retry_aux, e1, e2, e3, e4, hok,
        List.range_succ]

/-- Witness for C3: an always-failing operation is invoked 5 times, backing
off 1s, 2s, 4s, 8s, and surfaces the last error; an operation succeeding on
attempt 2 is invoked twice after a single 1s backoff. -/
theorem C3_witness :
    fetch_with_retry (fun _ => (.error "boom" : Except String Nat)) 5 =
      (.error (some "boom"), 5, [1, 2, 4, 8]) ∧
    fetch_with_retry (fun i => if i = 2 then (.ok 7 : Except String Nat)
        else .error "x") 5 =
      (.ok 7, 2, (List.range (2 - 1)).map (fun t => 2 ^ t)) := by
  constructor
  · exact (C3_retry_semantics (fun _ => .error "boom") (fun _ => "boom") 0 0).1
      (fun i h1 h2 => rfl)
  · exact (C3_retry_semantics (fun i => if i = 2 then .ok 7 else .error "x")
      (fun _ => "x") 7 2).2 (by omega) (by omega)
      (fun i h1 h2 => by interval_cases i; rfl) rfl

/-- The validity flag of a well-formed event can be read without raising. -/
theorem eventValid_of_hasValid (ev : JSON) (h : eventHasValid ev = true) :
    ∃ b, eventValid ev = .ok b := by
  cases ev with
  | obj fields =>
    cases hv : jsonGet fields "valid" with
    | none => simp [eventHasValid, hv] at h
    | some v => exact ⟨v.isTruthy, by simp [eventValid, hv]⟩
  | null => simp [eventHasValid] at h
  | bool b => simp [eventHasValid] at h
  | num n => simp [eventHasValid] at h
  | str s => simp [eventHasValid] at h
  | arr elems => simp [eventHasValid] at h

/-- Filtering a list of well-formed events cannot raise. -/
theorem filterEvents_ok (evs : List JSON) (h : evs.all eventHasValid = true) :
    ∃ l, filterEvents evs = .ok l := by
  induction evs with
  | nil => exact ⟨[], rfl⟩
  | cons ev rest ih =>
    simp only [List.all_cons, Bool.and_eq_true] at h
    obtain ⟨b, hb⟩ := eventValid_of_hasValid ev h.1
    obtain ⟨l, hl⟩ := ih h.2
    exact ⟨if b then ev :: l else l, by simp [filterEvents, hb, hl]⟩

/-- The validity pass over a well-formed `events` value cannot raise. -/
theorem passValidEvents_ok (v : JSON) (h : eventsWF v = true) :
    ∃ w, passValidEvents v = .ok w := by
  by_cases hv : v.isTruthy = false
  · exact ⟨v, by simp [passValidEvents, hv]⟩
  · simp only [eventsWF, if_neg hv] at h
    cases v with
    | arr evs =>
      obtain ⟨l, hl⟩ := filterEvents_ok evs h
      exact ⟨.arr l, by simp [passValidEvents, hv, hl]⟩
    | obj fields =>
      obtain ⟨b, hb⟩ := eventValid_of_hasValid _ h
      exact ⟨.obj fields, by simp [passValidEvents, hv, hb]⟩
    | null =>
      obtain ⟨b, hb⟩ := eventValid_of_hasValid _ h
      exact ⟨.null, by simp [passValidEvents, hv, hb]⟩
    | bool x =>
      obtain ⟨b, hb⟩ := eventValid_of_hasValid _ h
      exact ⟨.bool x, by simp [passValidEvents, hv, hb]⟩
    | num x =>
      obtain ⟨b, hb⟩ := eventValid_of_hasValid _ h
      exact ⟨.num x, by simp [passValidEvents, hv, hb]⟩
    | str x =>
      obtain ⟨b, hb⟩ := eventValid_of_hasValid _ h
      exact ⟨.str x, by simp [passValidEvents, hv, hb]⟩

/-- A field update by a function that cannot raise on well-formed values
cannot raise on a binding list whose `key` values are all well-formed. -/
theorem updateField_ok (key : String) (f : JSON → Except String JSON)
    (c : JSON → Bool) (hf : ∀ v, c v = true → ∃ w, f v = .ok w)
    (fields : List (String × JSON))
    (h : fields.all (fun p => p.1 != key || c p.2) = true) :
    ∃ l, updateField key f fields = .ok l := by
  induction fields with
  | nil => exact ⟨[], rfl⟩
  | cons p rest ih =>
    obtain ⟨k, v⟩ := p
    simp only [List.all_cons, Bool.and_eq_true] at h
    obtain ⟨l, hl⟩ := ih h.2
    by_cases hk : (k == key) = true
    · have hc : c v = true := by
        have := h.1
        simp only [bne, hk, Bool.not_true, Bool.false_or] at this
        exact this
      obtain ⟨w, hw⟩ := hf v hc
      exact ⟨(k, w) :: l, by simp [updateField, hk, hw, hl]⟩
    · exact ⟨(k, v) :: l, by simp [updateField, hk, hl]⟩

/-- The validity pass over a well-formed block entry cannot raise. -/
theorem passValidEntry_ok (e : JSON) (h : entryWF e = true) :
    ∃ w, passValidEntry e = .ok w := by
  cases e with
  | obj fields =>
    simp only [entryWF] at h
    obtain ⟨l, hl⟩ := updateField_ok "events" passValidEvents eventsWF
      passValidEvents_ok fields h
    exact ⟨.obj l, by simp [passValidEntry, hl]⟩
  | null => exact ⟨.null, rfl⟩
  | bool b => exact ⟨.bool b, rfl⟩
  | num n => exact ⟨.num n, rfl⟩
  | str s => exact ⟨.str s, rfl⟩
  | arr elems => exact ⟨.arr elems, rfl⟩

/-- Mapping a function that cannot raise on well-formed values over a list of
well-formed values cannot raise. -/
theorem mapEntries_ok (f : JSON → Except String JSON) (c : JSON → Bool)
    (hf : ∀ v, c v = true → ∃ w, f v = .ok w)
    (l : List JSON) (h : l.all c = true) :
    ∃ l2, mapEntries f l = .ok l2 := by
  induction l with
  | nil => exact ⟨[], rfl⟩
  | cons x rest ih =>
    simp only [List.all_cons, Bool.and_eq_true] at h
    obtain ⟨w, hw⟩ := hf x h.1
    obtain ⟨l2, hl2⟩ := ih h.2
    exact ⟨w :: l2, by simp [mapEntries, hw, hl2]⟩

/-- The validity pass over a well-formed `block` value cannot raise. -/
theorem passValidBlock_ok (v : JSON) (h : blockWF v = true) :
    ∃ w, passValidBlock v = .ok w := by
  by_cases hv : v.isTruthy = false
  · exact ⟨v, by simp [passValidBlock, hv]⟩
  · simp only [blockWF, if_neg hv] at h
    cases v with
    | arr entries =>
      obtain ⟨l, hl⟩ := mapEntries_ok passValidEntry entryWF passValidEntry_ok entries h
      exact ⟨.arr l, by simp [passValidBlock, hv, hl]⟩
    | obj fields =>
      obtain ⟨l, hl⟩ := updateField_ok "events" passValidEvents eventsWF
        passValidEvents_ok fields h
      exact ⟨.obj l, by simp [passValidBlock, hv, hl]⟩
    | null => exact ⟨.null, by simp [passValidBlock, hv]⟩
    | bool x => exact ⟨.bool x, by simp [passValidBlock, hv]⟩
    | num x => exact ⟨.num x, by simp [passValidBlock, hv]⟩
    | str x => exact ⟨.str x, by simp [passValidBlock, hv]⟩

/-- The validity pass over a well-formed payload cannot raise. -/
theorem passValid_ok (d : JSON) (h : brc20WF d = true) :
    ∃ v, passValid d = .ok v := by
  cases d with
  | obj fields =>
    simp only [brc20WF] at h
    obtain ⟨l, hl⟩ := updateField_ok "block" passValidBlock blockWF
      passValidBlock_ok fields h
    exact ⟨.obj l, by simp [passValid, hl]⟩
  | null => exact ⟨.null, rfl⟩
  | bool b => exact ⟨.bool b, rfl⟩
  | num n => exact ⟨.num n, rfl⟩
  | str s => exact ⟨.str s, rfl⟩
  | arr elems => exact ⟨.arr elems, rfl⟩

/-- C6 counterexample: the claim that `compare_block_receipts` returns a
verdict on *every* pair of payloads fails — on a payload whose event dict has
no `valid` key, the BRC20 normalization raises `KeyError`, so the comparison
raises instead of returning. -/
theorem C6_counterexample :
    brc20_compare_block_receipts
      (JSON.obj [("block", JSON.arr [JSON.obj [("events", JSON.arr [JSON.obj []])]])])
      (JSON.obj []) = .error "KeyError: valid" := rfl

/-- C6 (amended): the Ordinal comparison is total by construction, and the
BRC20 comparison (normalization included) returns a verdict without raising
on every pair of payloads in which each event matched by
`$.block[*].events[*]` is a dict carrying a `valid` key; on other payloads
the normalization can raise `KeyError`/`TypeError`. -/
theorem C6_totality_on_wellformed (a b : JSON)
    (ha : brc20WF a = true) (hb : brc20WF b = true) :
    (∃ y, brc20_normalize_data a = .ok y) ∧
    (∃ r, brc20_compare_block_receipts a b = .ok r) := by
  obtain ⟨va, hva⟩ := passValid_ok a ha
  obtain ⟨vb, hvb⟩ := passValid_ok b hb
  have hna : brc20_normalize_data a = .ok (stripMsg va) := by
    simp [brc20_normalize_data, hva]
  have hnb : brc20_normalize_data b = .ok (stripMsg vb) := by
    simp [brc20_normalize_data, hvb]
  refine ⟨⟨stripMsg va, hna⟩, ⟨compareReceipts "BRC20" (stripMsg va) (stripMsg vb), ?_⟩⟩
  simp [brc20_compare_block_receipts, hna, hnb]

/-- Witness for C6 at concrete well-formed payloads. -/
theorem C6_witness :
    (∃ y, brc20_normalize_data
      (JSON.obj [("block", JSON.arr [JSON.obj [("events",
        JSON.arr [JSON.obj [("valid", JSON.bool true)]])]])]) = .ok y) ∧
    (∃ r, brc20_compare_block_receipts
      (JSON.obj [("block", JSON.arr [JSON.obj [("events",
        JSON.arr [JSON.obj [("valid", JSON.bool true)]])]])])
      (JSON.obj []) = .ok r) :=
  C6_totality_on_wellformed _ _ rfl rfl

/-- Events kept by the validity filter pass it again unchanged. -/
theorem filterEvents_idem (evs : List JSON) :
    ∀ l, filterEvents evs = .ok l → filterEvents l = .ok l := by
  induction evs with
  | nil =>
    intro l h
    simp only [filterEvents] at h
    injection h with h
    subst h
    rfl
  | cons ev rest ih =>
    intro l h
    simp only [filterEvents] at h
    cases hev : eventValid ev with
    | error msg => rw [hev] at h; exact absurd h (by simp)
    | ok keep =>
      rw [hev] at h
      cases hrest : filterEvents rest with
      | error msg => rw [hrest] at h; exact absurd h (by simp)
      | ok rest2 =>
        rw [hrest] at h
        have hr2 := ih rest2 hrest
        cases keep with
        | true =>
          simp only [if_true] at h
          injection h with h
          subst h
          simp [filterEvents, hev, hr2]
        | false =>
          simp only [if_false] at h
          injection h with h
          subst h
          exact hr2

/-- The validity pass over an `events` value is idempotent on success. -/
theorem passValidEvents_idem (v w : JSON) (h : passValidEvents v = .ok w) :
    passValidEvents w = .ok w := by
  by_cases hv : v.isTruthy = false
  · simp only [passValidEvents, if_pos hv] at h
    injection h with h
    subst h
    simp [passValidEvents, hv]
  · cases v with
    | arr evs =>
      simp only [passValidEvents, if_neg hv] at h
      cases hf : filterEvents evs with
      | error msg => rw [hf] at h; exact absurd h (by simp)
      | ok evs2 =>
        rw [hf] at h
        injection h with h
        subst h
        have h2 := filterEvents_idem evs evs2 hf
        by_cases hw : (JSON.arr evs2).isTruthy = false
        · simp [passValidEvents, hw]
        · simp [passValidEvents, hw, h2]
    | obj fields =>
      simp only [passValidEvents, if_neg hv] at h
      cases he : eventValid (.obj fields) with
      | error msg => rw [he] at h; exact absurd h (by simp)
      | ok b =>
        rw [he] at h
        injection h with h
        subst h
        simp [passValidEvents, hv, he]
    | null =>
      simp only [passValidEvents, if_neg hv] at h
      cases he : eventValid .null with
      | error msg => rw [he] at h; exact absurd h (by simp)
      | ok b => rw [he] at h; injection h with h; subst h; simp [passValidEvents, hv, he]
    | bool x =>
      simp only [passValidEvents, if_neg hv] at h
      cases he : eventValid (.bool x) with
      | error msg => rw [he] at h; exact absurd h (by simp)
      | ok b => rw [he] at h; injection h with h; subst h; simp [passValidEvents, hv, he]
    | num x =>
      simp only [passValidEvents, if_neg hv] at h
      cases he : eventValid (.num x) with
      | error msg => rw [he] at h; exact absurd h (by simp)
      | ok b => rw [he] at h; injection h with h; subst h; simp [passValidEvents, hv, he]
    | str x =>
      simp only [passValidEvents, if_neg hv] at h
      cases he : eventValid (.str x) with
      | error msg => rw [he] at h; exact absurd h (by simp)
      | ok b => rw [he] at h; injection h with h; subst h; simp [passValidEvents, hv, he]

/-- A field update by an on-success-idempotent function is idempotent on
success. -/
theorem updateField_idem (key : String) (f : JSON → Except String JSON)
    (hf : ∀ v w, f v = .ok w → f w = .ok w) :
    ∀ fields fields2, updateField key f fields = .ok fields2 →
      updateField key f fields2 = .ok fields2 := by
  intro fields
  induction fields with
  | nil =>
    intro fields2 h
    simp only [updateField] at h
    injection h with h
    subst h
    rfl
  | cons p rest ih =>
    obtain ⟨k, v⟩ := p
    intro fields2 h
    simp only [updateField] at h
    cases hfv : (if (k == key) = true then f v else .ok v) with
    | error msg => rw [hfv] at h; exact absurd h (by simp)
    | ok v2 =>
      rw [hfv] at h
      cases hrest : updateField key f rest with
      | error msg => rw [hrest] at h; exact absurd h (by simp)
      | ok rest2 =>
        rw [hrest] at h
        injection h with h
        subst h
        have hr2 := ih rest2 hrest
        have hv2 : (if (k == key) = true then f v2 else .ok v2) = .ok v2 := by
          by_cases hk : (k == key) = true
          · rw [if_pos hk]
            rw [if_pos hk] at hfv
            exact hf v v2 hfv
          · rw [if_neg hk]
        simp only [updateField, hv2, hr2]

/-- Mapping an on-success-idempotent function is idempotent on success. -/
theorem mapEntries_idem (f : JSON → Except String JSON)
    (hf : ∀ v w, f v = .ok w → f w = .ok w) :
    ∀ l l2, mapEntries f l = .ok l2 → mapEntries f l2 = .ok l2 := by
  intro l
  induction l with
  | nil =>
    intro l2 h
    simp only [mapEntries] at h
    injection h with h
    subst h
    rfl
  | cons x rest ih =>
    intro l2 h
    simp only [mapEntries] at h
    cases hx : f x with
    | error msg => rw [hx] at h; exact absurd h (by simp)
    | ok x2 =>
      rw [hx] at h
      cases hrest : mapEntries f rest with
      | error msg => rw [hrest] at h; exact absurd h (by simp)
      | ok rest2 =>
        rw [hrest] at h
        injection h with h
        subst h
        simp [mapEntries, hf x x2 hx, ih rest2 hrest]

/-- The validity pass over one block entry is idempotent on success. -/
theorem passValidEntry_idem (e w : JSON) (h : passValidEntry e = .ok w) :
    passValidEntry w = .ok w := by
  cases e with
  | obj fields =>
    simp only [passValidEntry] at h
    cases hu : updateField "events" passValidEvents fields with
    | error msg => rw [hu] at h; exact absurd h (by simp)
    | ok l =>
      rw [hu] at h
      injection h with h
      subst h
      simp [passValidEntry,
        updateField_idem "events" passValidEvents passValidEvents_idem fields l hu]
  | null => injection h with h; subst h; rfl
  | bool b => injection h with h; subst h; rfl
  | num n => injection h with h; subst h; rfl
  | str s => injection h with h; subst h; rfl
  | arr elems => injection h with h; subst h; rfl

/-- A successful field update preserves the number of bindings. -/
theorem updateField_length (key : String) (f : JSON → Except String JSON) :
    ∀ fields fields2, updateField key f fields = .ok fields2 →
      fields2.length = fields.length := by
  intro fields
  induction fields with
  | nil =>
    intro fields2 h
    simp only [updateField] at h
    injection h with h
    subst h
    rfl
  | cons p rest ih =>
    obtain ⟨k, v⟩ := p
    intro fields2 h
    simp only [updateField] at h
    cases hfv : (if (k == key) = true then f v else .ok v) with
    | error msg => rw [hfv] at h; exact absurd h (by simp)
    | ok v2 =>
      rw [hfv] at h
      cases hrest : updateField key f rest with
      | error msg => rw [hrest] at h; exact absurd h (by simp)
      | ok rest2 =>
        rw [hrest] at h
        injection h with h
        subst h
        simp [ih rest2 hrest]

/-- A successful entry map preserves length. -/
theorem mapEntries_length (f : JSON → Except String JSON) :
    ∀ l l2, mapEntries f l = .ok l2 → l2.length = l.length := by
  intro l
  induction l with
  | nil =>
    intro l2 h
    simp only [mapEntries] at h
    injection h with h
    subst h
    rfl
  | cons x rest ih =>
    intro l2 h
    simp only [mapEntries] at h
    cases hx : f x with
    | error msg => rw [hx] at h; exact absurd h (by simp)
    | ok x2 =>
      rw [hx] at h
      cases hrest : mapEntries f rest with
      | error msg => rw [hrest] at h; exact absurd h (by simp)
      | ok rest2 =>
        rw [hrest] at h
        injection h with h
        subst h
        simp [ih rest2 hrest]

/-- The validity pass over a `block` value is idempotent on success. -/
theorem passValidBlock_idem (v w : JSON) (h : passValidBlock v = .ok w) :
    passValidBlock w = .ok w := by
  by_cases hv : v.isTruthy = false
  · simp only [passValidBlock, if_pos hv] at h
    injection h with h
    subst h
    simp [passValidBlock, hv]
  · cases v with
    | arr entries =>
      simp only [passValidBlock, if_neg hv] at h
      cases hm : mapEntries passValidEntry entries with
      | error msg => rw [hm] at h; exact absurd h (by simp)
      | ok l =>
        rw [hm] at h
        injection h with h
        subst h
        have hlen := mapEntries_length passValidEntry entries l hm
        have hne : ¬((JSON.arr l).isTruthy = false) := by
          have hent : entries ≠ [] := by
            intro hnil
            subst hnil
            exact hv (by rfl)
          have hl : l ≠ [] := by
            intro hl
            subst hl
            simp at hlen
            exact hent (List.length_eq_zero.mp hlen.symm)
          simpa [JSON.isTruthy, List.isEmpty_iff] using hl
        simp [passValidBlock, hne,
          mapEntries_idem passValidEntry passValidEntry_idem entries l hm]
    | obj fields =>
      simp only [passValidBlock, if_neg hv] at h
      cases hu : updateField "events" passValidEvents fields with
      | error msg => rw [hu] at h; exact absurd h (by simp)
      | ok l =>
        rw [hu] at h
        injection h with h
        subst h
        have hlen := updateField_length "events" passValidEvents fields l hu
        have hne : ¬((JSON.obj l).isTruthy = false) := by
          have hent : fields ≠ [] := by
            intro hnil
            subst hnil
            exact hv (by rfl)
          have hl : l ≠ [] := by
            intro hl
            subst hl
            simp at hlen
            exact hent (List.length_eq_zero.mp hlen.symm)
          simpa [JSON.isTruthy, List.isEmpty_iff] using hl
        simp [passValidBlock, hne,
          updateField_idem "events" passValidEvents passValidEvents_idem fields l hu]
    | null =>
      simp only [passValidBlock, if_neg hv] at h
      injection h with h; subst h; simp [passValidBlock, hv]
    | bool x =>
      simp only [passValidBlock, if_neg hv] at h
      injection h with h; subst h; simp [passValidBlock, hv]
    | num x =>
      simp only [passValidBlock, if_neg hv] at h
      injection h with h; subst h; simp [passValidBlock, hv]
    | str x =>
      simp only [passValidBlock, if_neg hv] at h
      injection h with h; subst h; simp [passValidBlock, hv]

/-- The whole validity pass is idempotent on success. -/
theorem passValid_idem (d v : JSON) (h : passValid d = .ok v) :
    passValid v = .ok v := by
  cases d with
  | obj fields =>
    simp only [passValid] at h
    cases hu : updateField "block" passValidBlock fields with
    | error msg => rw [hu] at h; exact absurd h (by simp)
    | ok l =>
      rw [hu] at h
      injection h with h
      subst h
      simp [passValid,
        updateField_idem "block" passValidBlock passValidBlock_idem fields l hu]
  | null => injection h with h; subst h; rfl
  | bool b => injection h with h; subst h; rfl
  | num n => injection h with h; subst h; rfl
  | str s => injection h with h; subst h; rfl
  | arr elems => injection h with h; subst h; rfl

/-- Dropping `msg` bindings does not change the `valid` lookup. -/
theorem jsonGet_valid_filter_msg (l : List (String × JSON)) :
    jsonGet (l.filter (fun p => p.1 != "msg")) "valid" = jsonGet l "valid" := by
  induction l with
  | nil => rfl
  | cons p rest ih =>
    obtain ⟨k, v⟩ := p
    by_cases hk : (k == "valid") = true
    · have hkv : k = "valid" := by simpa using hk
      subst hkv
      simp [jsonGet, List.filter_cons, List.find?]
    · by_cases hm : (k != "msg") = true
      · simp only [jsonGet, List.filter_cons, hm, if_true, List.find?, hk] at ih ⊢
        exact ih
      · simp only [jsonGet, List.filter_cons, if_neg hm] at ih ⊢
        rw [ih]
        have hb : (k == "valid") = false := by simpa using hk
        rw [List.find?_cons]
        simp only [hb]

/-- A dict with a binding is not empty. -/
theorem jsonGet_ne_nil (l : List (String × JSON)) (k : String) (v : JSON)
    (h : jsonGet l k = some v) : l ≠ [] := by
  intro hnil
  subst hnil
  simp [jsonGet] at h

/-- Stripping the `msg` field of an event does not change its validity
flag. -/
theorem eventValid_stripMsgEvent (ev : JSON) (b : Bool)
    (h : eventValid ev = .ok b) : eventValid (stripMsgEvent ev) = .ok b := by
  cases ev with
  | obj fields =>
    simp only [eventValid] at h
    cases hv : jsonGet fields "valid" with
    | none => rw [hv] at h; exact absurd h (by simp)
    | some vv =>
      rw [hv] at h
      injection h with h
      subst h
      simp only [stripMsgEvent, eventValid, jsonGet_valid_filter_msg, hv]
  | null => exact absurd h (by simp [eventValid])
  | bool x => exact absurd h (by simp [eventValid])
  | num x => exact absurd h (by simp [eventValid])
  | str x => exact absurd h (by simp [eventValid])
  | arr elems => exact absurd h (by simp [eventValid])

/-- The validity filter never lengthens a list. -/
theorem filterEvents_length_le (evs : List JSON) :
    ∀ l, filterEvents evs = .ok l → l.length ≤ evs.length := by
  induction evs with
  | nil =>
    intro l h
    simp only [filterEvents] at h
    injection h with h
    subst h
    exact Nat.le_refl 0
  | cons ev rest ih =>
    intro l h
    simp only [filterEvents] at h
    cases hev : eventValid ev with
    | error msg => rw [hev] at h; exact absurd h (by simp)
    | ok keep =>
      rw [hev] at h
      cases hrest : filterEvents rest with
      | error msg => rw [hrest] at h; exact absurd h (by simp)
      | ok rest2 =>
        rw [hrest] at h
        have := ih rest2 hrest
        cases keep with
        | true =>
          simp only [if_true] at h
          injection h with h
          subst h
          simpa using Nat.succ_le_succ this
        | false =>
          simp only [if_false] at h
          injection h with h
          subst h
          exact Nat.le_succ_of_le this

/-- A list of events fixed by the validity filter stays fixed after `msg`
stripping. -/
theorem filterEvents_stripMsg (evs : List JSON)
    (h : filterEvents evs = .ok evs) :
    filterEvents (evs.map stripMsgEvent) = .ok (evs.map stripMsgEvent) := by
  induction evs with
  | nil => rfl
  | cons ev rest ih =>
    simp only [filterEvents] at h
    cases hev : eventValid ev with
    | error msg => rw [hev] at h; exact absurd h (by simp)
    | ok keep =>
      rw [hev] at h
      cases hrest : filterEvents rest with
      | error msg => rw [hrest] at h; exact absurd h (by simp)
      | ok rest2 =>
        rw [hrest] at h
        cases keep with
        | true =>
          simp only [if_true] at h
          injection h with h
          have hr : rest2 = rest := (List.cons.injEq _ _ _ _ ▸ h).2
          subst hr
          have hstrip := eventValid_stripMsgEvent ev true hev
          have hrest2 := ih hrest
          simp only [List.map_cons, filterEvents, hstrip, hrest2, if_true]
        | false =>
          simp only [if_false] at h
          injection h with h
          have hlen := filterEvents_length_le rest rest2 hrest
          subst h
          simp at hlen

/-- The rewrite `updateFieldP` preserves the number of bindings. -/
theorem updateFieldP_length (key : String) (g : JSON → JSON) :
    ∀ l, (updateFieldP key g l).length = l.length := by
  intro l
  induction l with
  | nil => rfl
  | cons p rest ih =>
    obtain ⟨k, v⟩ := p
    simp [updateFieldP, ih]

/-- An `events` value fixed by the validity pass stays fixed after `msg`
stripping. -/
theorem passValidEvents_stripMsg (w : JSON) (h : passValidEvents w = .ok w) :
    passValidEvents (stripMsgEvents w) = .ok (stripMsgEvents w) := by
  by_cases hw : w.isTruthy = false
  · unfold stripMsgEvents
    rw [if_pos hw]
    exact h
  · cases w with
    | arr evs =>
      simp only [passValidEvents, if_neg hw] at h
      cases hf : filterEvents evs with
      | error msg => rw [hf] at h; exact absurd h (by simp)
      | ok evs2 =>
        rw [hf] at h
        injection h with h
        injection h with h
        have h := h.symm
        subst h
        have hfix := filterEvents_stripMsg evs hf
        have hne : evs ≠ [] := by
          intro hnil
          subst hnil
          exact hw rfl
        have hmne : ¬((JSON.arr (evs.map stripMsgEvent)).isTruthy = false) := by
          simp [JSON.isTruthy, List.isEmpty_iff, hne]
        simp only [stripMsgEvents, if_neg hw]
        simp only [passValidEvents, if_neg hmne, hfix]
    | obj fields =>
      simp only [passValidEvents, if_neg hw] at h
      cases he : eventValid (.obj fields) with
      | error msg => rw [he] at h; exact absurd h (by simp)
      | ok b =>
        have hsv : ∃ vv, jsonGet fields "valid" = some vv := by
          simp only [eventValid] at he
          cases hv : jsonGet fields "valid" with
          | none => rw [hv] at he; exact absurd he (by simp)
          | some vv => exact ⟨vv, rfl⟩
        obtain ⟨vv, hvv⟩ := hsv
        have hstrip := eventValid_stripMsgEvent (.obj fields) b he
        have hget : jsonGet (fields.filter (fun p => p.1 != "msg")) "valid" = some vv := by
          rw [jsonGet_valid_filter_msg]
          exact hvv
        have hne := jsonGet_ne_nil _ _ _ hget
        have hsne : ¬((JSON.obj (fields.filter (fun p => p.1 != "msg"))).isTruthy
            = false) := by
          simp [JSON.isTruthy, List.isEmpty_iff, hne]
        simp only [stripMsgEvents, if_neg hw]
        simp only [stripMsgEvent] at hstrip ⊢
        simp only [passValidEvents, if_neg hsne, hstrip]
    | null => exact absurd rfl hw
    | bool x =>
      simp only [stripMsgEvents, if_neg hw]
      simpa [stripMsgEvent] using h
    | num x =>
      simp only [stripMsgEvents, if_neg hw]
      simpa [stripMsgEvent] using h
    | str x =>
      simp only [stripMsgEvents, if_neg hw]
      simpa [stripMsgEvent] using h

/-- A binding list fixed by a fallible field update stays fixed after a
pointwise rewrite that preserves fixedness. -/
theorem updateField_stripMsg (key : String) (f : JSON → Except String JSON)
    (g : JSON → JSON) (hfg : ∀ v, f v = .ok v → f (g v) = .ok (g v)) :
    ∀ l, updateField key f l = .ok l →
      updateField key f (updateFieldP key g l) = .ok (updateFieldP key g l) := by
  intro l
  induction l with
  | nil => intro _; rfl
  | cons p rest ih =>
    obtain ⟨k, v⟩ := p
    intro h
    simp only [updateField] at h
    cases hfv : (if (k == key) = true then f v else .ok v) with
    | error msg => rw [hfv] at h; exact absurd h (by simp)
    | ok v2 =>
      rw [hfv] at h
      cases hrest : updateField key f rest with
      | error msg => rw [hrest] at h; exact absurd h (by simp)
      | ok rest2 =>
        rw [hrest] at h
        injection h with h
        rw [List.cons.injEq, Prod.mk.injEq] at h
        obtain ⟨⟨_, hv2⟩, hr2⟩ := h
        subst hv2
        subst hr2
        have ihr := ih hrest
        by_cases hk : (k == key) = true
        · rw [if_pos hk] at hfv
          have hg := hfg _ hfv
          simp only [updateFieldP, if_pos hk]
          simp only [updateField, if_pos hk, hg, ihr]
        · simp only [updateFieldP, if_neg hk]
          simp only [updateField, if_neg hk, ihr]

/-- An entry list fixed by a fallible map stays fixed after a pointwise
rewrite that preserves fixedness. -/
theorem mapEntries_stripMsg (f : JSON → Except String JSON) (g : JSON → JSON)
    (hfg : ∀ v, f v = .ok v → f (g v) = .ok (g v)) :
    ∀ l, mapEntries f l = .ok l →
      mapEntries f (l.map g) = .ok (l.map g) := by
  intro l
  induction l with
  | nil => intro _; rfl
  | cons x rest ih =>
    intro h
    simp only [mapEntries] at h
    cases hx : f x with
    | error msg => rw [hx] at h; exact absurd h (by simp)
    | ok x2 =>
      rw [hx] at h
      cases hrest : mapEntries f rest with
      | error msg => rw [hrest] at h; exact absurd h (by simp)
      | ok rest2 =>
        rw [hrest] at h
        injection h with h
        rw [List.cons.injEq] at h
        obtain ⟨hx2, hr2⟩ := h
        subst hx2
        subst hr2
        simp only [List.map_cons, mapEntries, hfg _ hx, ih hrest]

/-- A block entry fixed by the validity pass stays fixed after `msg`
stripping. -/
theorem passValidEntry_stripMsg (e : JSON) (h : passValidEntry e = .ok e) :
    passValidEntry (stripMsgEntry e) = .ok (stripMsgEntry e) := by
  cases e with
  | obj fields =>
    simp only [passValidEntry] at h
    cases hu : updateField "events" passValidEvents fields with
    | error msg => rw [hu] at h; exact absurd h (by simp)
    | ok l =>
      rw [hu] at h
      injection h with h
      injection h with h
      have h := h.symm
      subst h
      have := updateField_stripMsg "events" passValidEvents stripMsgEvents
        passValidEvents_stripMsg fields hu
      simp only [stripMsgEntry, passValidEntry, this]
  | null => exact h
  | bool b => exact h
  | num n => exact h
  | str s => exact h
  | arr elems => exact h

/-- A `block` value fixed by the validity pass stays fixed after `msg`
stripping. -/
theorem passValidBlock_stripMsg (v : JSON) (h : passValidBlock v = .ok v) :
    passValidBlock (stripMsgBlock v) = .ok (stripMsgBlock v) := by
  by_cases hv : v.isTruthy = false
  · unfold stripMsgBlock
    rw [if_pos hv]
    exact h
  · cases v with
    | arr entries =>
      simp only [passValidBlock, if_neg hv] at h
      cases hm : mapEntries passValidEntry entries with
      | error msg => rw [hm] at h; exact absurd h (by simp)
      | ok l =>
        rw [hm] at h
        injection h with h
        injection h with h
        have h := h.symm
        subst h
        have hfix := mapEntries_stripMsg passValidEntry stripMsgEntry
          passValidEntry_stripMsg entries hm
        have hne : entries ≠ [] := by
          intro hnil
          subst hnil
          exact hv rfl
        have hmne : ¬((JSON.arr (entries.map stripMsgEntry)).isTruthy = false) := by
          simp [JSON.isTruthy, List.isEmpty_iff, hne]
        simp only [stripMsgBlock, if_neg hv]
        simp only [passValidBlock, if_neg hmne, hfix]
    | obj fields =>
      simp only [passValidBlock, if_neg hv] at h
      cases hu : updateField "events" passValidEvents fields with
      | error msg => rw [hu] at h; exact absurd h (by simp)
      | ok l =>
        rw [hu] at h
        injection h with h
        injection h with h
        have h := h.symm
        subst h
        have hfix := updateField_stripMsg "events" passValidEvents stripMsgEvents
          passValidEvents_stripMsg fields hu
        have hne : fields ≠ [] := by
          intro hnil
          subst hnil
          exact hv rfl
        have hpne : ¬((JSON.obj (updateFieldP "events" stripMsgEvents fields)).isTruthy
            = false) := by
          have hlen := updateFieldP_length "events" stripMsgEvents fields
          have hup : updateFieldP "events" stripMsgEvents fields ≠ [] := by
            intro hl
            rw [hl] at hlen
            simp at hlen
            exact hne (List.length_eq_zero.mp hlen.symm)
          simp [JSON.isTruthy, List.isEmpty_iff, hup]
        simp only [stripMsgBlock, if_neg hv]
        simp only [passValidBlock, if_neg hpne, hfix]
    | null => exact absurd rfl hv
    | bool x =>
      simp only [stripMsgBlock, if_neg hv]
      exact h
    | num x =>
      simp only [stripMsgBlock, if_neg hv]
      exact h
    | str x =>
      simp only [stripMsgBlock, if_neg hv]
      exact h

/-- A payload fixed by the validity pass stays fixed after `msg`
stripping. -/
theorem passValid_stripMsg (v : JSON) (h : passValid v = .ok v) :
    passValid (stripMsg v) = .ok (stripMsg v) := by
  cases v with
  | obj fields =>
    simp only [passValid] at h
    cases hu : updateField "block" passValidBlock fields with
    | error msg => rw [hu] at h; exact absurd h (by simp)
    | ok l =>
      rw [hu] at h
      injection h with h
      injection h with h
      have h := h.symm
      subst h
      have := updateField_stripMsg "block" passValidBlock stripMsgBlock
        passValidBlock_stripMsg fields hu
      simp only [stripMsg, passValid, this]
  | null => exact h
  | bool b => exact h
  | num n => exact h
  | str s => exact h
  | arr elems => exact h

/-- Filtering twice with the same predicate filters once. -/
theorem filter_self_idem {α : Type} (p : α → Bool) (l : List α) :
    (l.filter p).filter p = l.filter p := by
  induction l with
  | nil => rfl
  | cons a t ih =>
    by_cases ha : p a = true
    · simp [List.filter_cons, ha, ih]
    · simp [List.filter_cons, ha, ih]

/-- Deleting `msg` bindings twice equals deleting them once. -/
theorem stripMsgEvent_idem (ev : JSON) :
    stripMsgEvent (stripMsgEvent ev) = stripMsgEvent ev := by
  cases ev with
  | obj fields => simp [stripMsgEvent, filter_self_idem]
  | null => rfl
  | bool b => rfl
  | num n => rfl
  | str s => rfl
  | arr elems => rfl

/-- Mapping the `msg` deletion twice over a list equals mapping it once. -/
theorem map_stripMsgEvent_idem (l : List JSON) :
    (l.map stripMsgEvent).map stripMsgEvent = l.map stripMsgEvent := by
  induction l with
  | nil => rfl
  | cons x t ih => simp [stripMsgEvent_idem, ih]

/-- The `msg` pass over an `events` value is idempotent. -/
theorem stripMsgEvents_idem (v : JSON) :
    stripMsgEvents (stripMsgEvents v) = stripMsgEvents v := by
  by_cases hv : v.isTruthy = false
  · have h0 : stripMsgEvents v = v := by
      unfold stripMsgEvents
      rw [if_pos hv]
    rw [h0, h0]
  · cases v with
    | arr evs =>
      have h0 : stripMsgEvents (JSON.arr evs) = .arr (evs.map stripMsgEvent) := by
        simp only [stripMsgEvents, if_neg hv]
      rw [h0]
      have hne : evs ≠ [] := by
        intro hnil
        subst hnil
        exact hv rfl
      have hmne : ¬((JSON.arr (evs.map stripMsgEvent)).isTruthy = false) := by
        simp [JSON.isTruthy, List.isEmpty_iff, hne]
      simp only [stripMsgEvents, if_neg hmne, map_stripMsgEvent_idem]
    | obj fields =>
      have h0 : stripMsgEvents (JSON.obj fields) =
          .obj (fields.filter (fun p => p.1 != "msg")) := by
        simp only [stripMsgEvents, if_neg hv, stripMsgEvent]
      rw [h0]
      by_cases hf : (JSON.obj (fields.filter (fun p => p.1 != "msg"))).isTruthy = false
      · unfold stripMsgEvents
        rw [if_pos hf]
      · simp only [stripMsgEvents, if_neg hf, stripMsgEvent, filter_self_idem]
    | null => exact absurd rfl hv
    | bool x => simp only [stripMsgEvents, if_neg hv, stripMsgEvent]
    | num x => simp only [stripMsgEvents, if_neg hv, stripMsgEvent]
    | str x => simp only [stripMsgEvents, if_neg hv, stripMsgEvent]

/-- A pointwise-idempotent field rewrite is idempotent. -/
theorem updateFieldP_idem (key : String) (g : JSON → JSON)
    (hg : ∀ v, g (g v) = g v) (l : List (String × JSON)) :
    updateFieldP key g (updateFieldP key g l) = updateFieldP key g l := by
  induction l with
  | nil => rfl
  | cons p rest ih =>
    obtain ⟨k, v⟩ := p
    by_cases hk : (k == key) = true
    · simp [updateFieldP, hk, hg, ih]
    · simp [updateFieldP, hk, ih]

/-- The `msg` pass over a block entry is idempotent. -/
theorem stripMsgEntry_idem (e : JSON) :
    stripMsgEntry (stripMsgEntry e) = stripMsgEntry e := by
  cases e with
  | obj fields =>
    simp [stripMsgEntry, updateFieldP_idem "events" stripMsgEvents stripMsgEvents_idem]
  | null => rfl
  | bool b => rfl
  | num n => rfl
  | str s => rfl
  | arr elems => rfl

/-- Mapping the entry `msg` pass twice equals mapping it once. -/
theorem map_stripMsgEntry_idem (l : List JSON) :
    (l.map stripMsgEntry).map stripMsgEntry = l.map stripMsgEntry := by
  induction l with
  | nil => rfl
  | cons x t ih => simp [stripMsgEntry_idem, ih]

/-- The `msg` pass over a `block` value is idempotent. -/
theorem stripMsgBlock_idem (v : JSON) :
    stripMsgBlock (stripMsgBlock v) = stripMsgBlock v := by
  by_cases hv : v.isTruthy = false
  · have h0 : stripMsgBlock v = v := by
      unfold stripMsgBlock
      rw [if_pos hv]
    rw [h0, h0]
  · cases v with
    | arr entries =>
      have h0 : stripMsgBlock (JSON.arr entries) = .arr (entries.map stripMsgEntry) := by
        simp only [stripMsgBlock, if_neg hv]
      rw [h0]
      have hne : entries ≠ [] := by
        intro hnil
        subst hnil
        exact hv rfl
      have hmne : ¬((JSON.arr (entries.map stripMsgEntry)).isTruthy = false) := by
        simp [JSON.isTruthy, List.isEmpty_iff, hne]
      simp only [stripMsgBlock, if_neg hmne, map_stripMsgEntry_idem]
    | obj fields =>
      have h0 : stripMsgBlock (JSON.obj fields) =
          .obj (updateFieldP "events" stripMsgEvents fields) := by
        simp only [stripMsgBlock, if_neg hv]
      rw [h0]
      have hne : fields ≠ [] := by
        intro hnil
        subst hnil
        exact hv rfl
      have hpne : ¬((JSON.obj (updateFieldP "events" stripMsgEvents fields)).isTruthy
          = false) := by
        have hlen := updateFieldP_length "events" stripMsgEvents fields
        have hup : updateFieldP "events" stripMsgEvents fields ≠ [] := by
          intro hl
          rw [hl] at hlen
          simp at hlen
          exact hne (List.length_eq_zero.mp hlen.symm)
        simp [JSON.isTruthy, List.isEmpty_iff, hup]
      simp only [stripMsgBlock, if_neg hpne,
        updateFieldP_idem "events" stripMsgEvents stripMsgEvents_idem]
    | null => exact absurd rfl hv
    | bool x => simp only [stripMsgBlock, if_neg hv]
    | num x => simp only [stripMsgBlock, if_neg hv]
    | str x => simp only [stripMsgBlock, if_neg hv]

/-- The whole `msg` pass is idempotent. -/
theorem stripMsg_idem (v : JSON) : stripMsg (stripMsg v) = stripMsg v := by
  cases v with
  | obj fields =>
    simp [stripMsg, updateFieldP_idem "block" stripMsgBlock stripMsgBlock_idem]
  | null => rfl
  | bool b => rfl
  | num n => rfl
  | str s => rfl
  | arr elems => rfl

/-- C5: the BRC20 normalization is idempotent — whenever it returns a
normalized payload, normalizing that payload again returns it unchanged
(removing already-removed invalid events and deleting already-deleted `msg`
fields is a no-op). -/
theorem C5_normalize_idempotent (x y : JSON)
    (h : brc20_normalize_data x = .ok y) : brc20_normalize_data y = .ok y := by
  simp only [brc20_normalize_data] at h ⊢
  cases hp : passValid x with
  | error msg => rw [hp] at h; exact absurd h (by simp)
  | ok v =>
    rw [hp] at h
    injection h with h
    subst h
    have h1 := passValid_idem x v hp
    have h2 := passValid_stripMsg v h1
    simp only [h2, stripMsg_idem]

/-- Witness for C5 at a concrete payload containing an invalid event and a
`msg` field. -/
theorem C5_witness :
    brc20_normalize_data
      (JSON.obj [("block", JSON.arr [JSON.obj [("events",
        JSON.arr [JSON.obj [("valid", JSON.bool true), ("msg", JSON.str "m")],
                  JSON.obj [("valid", JSON.bool false)]])]])]) =
      .ok (JSON.obj [("block", JSON.arr [JSON.obj [("events",
        JSON.arr [JSON.obj [("valid", JSON.bool true)]])]])]) ∧
    brc20_normalize_data
      (JSON.obj [("block", JSON.arr [JSON.obj [("events",
        JSON.arr [JSON.obj [("valid", JSON.bool true)]])]])]) =
      .ok (JSON.obj [("block", JSON.arr [JSON.obj [("events",
        JSON.arr [JSON.obj [("valid", JSON.bool true)]])]])]) :=
  ⟨rfl, C5_normalize_idempotent
    (JSON.obj [("block", JSON.arr [JSON.obj [("events",
      JSON.arr [JSON.obj [("valid", JSON.bool true), ("msg", JSON.str "m")],
                JSON.obj [("valid", JSON.bool false)]])]])]) _ rfl⟩

/-- Witness for C9: a `KeyboardInterrupt` propagating out of initialization
exits with code 130. -/
theorem C9_witness :
    main_exit_code PyOutcome.keyboardInterrupt InterruptEvent.none = 130 :=
  (C9_exit_codes PyOutcome.keyboardInterrupt InterruptEvent.none).1.mpr rfl
